import Mathlib

/-!
Verification of the pep-energy-project ingestion pipeline and read API.

The embedding translates:
  * `src/src/lambda_data_processing/handler.py` (`process_s3_file_handler`),
    including the buffered batch writer it uses (staging, automatic flush at
    the 25-item batch limit, and flush of the remaining buffer when the
    writer context is exited, including exit caused by an exception), and
  * `src/src/lambda_api/main.py` (`get_system_summary`,
    `get_records_by_site`).

Numeric JSON values are modelled as exact rationals: the handler converts
every number through `Decimal(str(...))` before storage, and the spec
requires a decimal-safe representation, so the store round-trips values
exactly.  Python's `round(x, 2)` is round-half-to-even, modelled by
`round2` below.
-/

namespace Pep

/-- A JSON scalar value as it appears in a raw batch file. -/
inductive JVal where
  | num (q : ℚ)
  | str (s : String)
  | null
deriving DecidableEq

/-- One untrusted input record of a raw batch file.  A field is `none` when
the key is absent from the JSON object (`record['site_id']` etc. would raise
`KeyError`).  The two identity fields are strings in every batch file; the
two energy fields may be any JSON value, and a non-numeric value makes
`generated - consumed` raise `TypeError` in the handler. -/
structure RawRecord where
  site_id : Option String
  timestamp : Option String
  energy_generated_kwh : Option JVal
  energy_consumed_kwh : Option JVal
deriving DecidableEq

/-- The canonical persisted record, mirroring the `item` dict built at
handler.py lines 58-65. -/
structure EnergyRecord where
  site_id : String
  timestamp : String
  energy_generated_kwh : ℚ
  energy_consumed_kwh : ℚ
  net_energy_kwh : ℚ
  anomaly : Bool
deriving DecidableEq

/-- Anomaly classification, handler.py line 54:
`bool(generated < 0 or consumed < 0)`. -/
def classify (g c : ℚ) : Bool :=
  decide (g < 0) || decide (c < 0)

/-- Round a rational to the nearest integer, ties to even: the semantics of
Python's builtin `round`.  (`Rat.floor` is used rather than the `⌊ ⌋`
notation so that concrete inputs evaluate by kernel reduction.) -/
def roundHalfEven (q : ℚ) : ℤ :=
  let f := Rat.floor q
  if q - f < 1/2 then f
  else if 1/2 < q - f then f + 1
  else if f % 2 = 0 then f else f + 1

/-- `round(x, 2)` from handler.py line 63: round to 2 decimal places. -/
def round2 (q : ℚ) : ℚ :=
  (roundHalfEven (q * 100) : ℚ) / 100

/-- The per-record normalization of handler.py lines 48-65: read the four
required fields, compute `net_energy = generated - consumed`, classify the
anomaly, and build the item to store.  A missing field (`KeyError`) or a
non-numeric energy value (`TypeError` on the subtraction) raises, which the
embedding reports as `Except.error`. -/
def normalize (raw : RawRecord) : Except Unit EnergyRecord :=
  match raw.site_id, raw.energy_generated_kwh, raw.energy_consumed_kwh, raw.timestamp with
  | some sid, some (JVal.num g), some (JVal.num c), some ts =>
      Except.ok { site_id := sid, timestamp := ts, energy_generated_kwh := g,
                  energy_consumed_kwh := c, net_energy_kwh := round2 (g - c),
                  anomaly := classify g c }
  | _, _, _, _ => Except.error ()

/-- The durable store: one row per `(site_id, timestamp)` key.  Represented
as a list in which a key occurs at most once when starting from a store with
that property. -/
abbrev Store := List EnergyRecord

/-- Two records share the DynamoDB `(partition key, sort key)` pair. -/
def keyEq (a b : EnergyRecord) : Bool :=
  a.site_id == b.site_id && a.timestamp == b.timestamp

/-- A single keyed write: last writer wins on the `(site_id, timestamp)`
key. -/
def put_item (s : Store) (r : EnergyRecord) : Store :=
  s.filter (fun x => !(keyEq x r)) ++ [r]

/-- Apply a list of keyed writes in order. -/
def insertAll (items : List EnergyRecord) (s : Store) : Store :=
  items.foldl put_item s

/-- Read one record back by its key. -/
def lookupStore (s : Store) (sid ts : String) : Option EnergyRecord :=
  s.find? (fun x => x.site_id == sid && x.timestamp == ts)

/-- The SNS message published at handler.py lines 73-81: it carries the site
id (subject and body), the timestamp, the generated/consumed values and the
source file reference `s3://bucket/key`. -/
structure Notification where
  site_id : String
  timestamp : String
  energy_generated_kwh : ℚ
  energy_consumed_kwh : ℚ
  bucket : String
  key : String
deriving DecidableEq

/-- Build the notification for one anomalous record. -/
def mkNotif (bucket key : String) (r : EnergyRecord) : Notification :=
  ⟨r.site_id, r.timestamp, r.energy_generated_kwh, r.energy_consumed_kwh, bucket, key⟩

/-- Observable effects of a pipeline run, in order of occurrence:
`stage r` is `batch.put_item` placing `r` in the writer's buffer,
`flush items` is one durable `BatchWriteItem` call submitting `items`, and
`notify n` is one successful `sns_client.publish`. -/
inductive Event where
  | stage (r : EnergyRecord)
  | flush (items : List EnergyRecord)
  | notify (n : Notification)
deriving DecidableEq

/-- The batch writer's flush threshold: boto3's `BatchWriter` default
`flush_amount`, which is DynamoDB's 25-item batch-size limit. -/
def FLUSH_AMOUNT : Nat := 25

/-- Store contents after the batch writer context closes (normally or via an
exception): the remaining buffer is flushed; an empty buffer flushes
nothing. -/
def exitFlushStore (s : Store) (b : List EnergyRecord) : Store :=
  if b.isEmpty then s else insertAll b s

/-- Trace after the batch writer context closes: one final flush event when
the buffer is non-empty. -/
def exitFlushTrace (t : List Event) (b : List EnergyRecord) : List Event :=
  if b.isEmpty then t else t ++ [Event.flush b]

/-- Store after `batch.put_item`: the writer buffers the record and submits
a durable batch write only when the buffer reaches `FLUSH_AMOUNT`. -/
def stepStore (s : Store) (b1 : List EnergyRecord) : Store :=
  if FLUSH_AMOUNT ≤ b1.length then insertAll b1 s else s

/-- Buffer after `batch.put_item` (already containing the new record). -/
def stepBuffer (b1 : List EnergyRecord) : List EnergyRecord :=
  if FLUSH_AMOUNT ≤ b1.length then [] else b1

/-- Trace after `batch.put_item` (already containing the stage event). -/
def stepTrace (t1 : List Event) (b1 : List EnergyRecord) : List Event :=
  if FLUSH_AMOUNT ≤ b1.length then t1 ++ [Event.flush b1] else t1

/-- Result of the record loop: whether the `with table.batch_writer()` block
completed without an exception, the final store, and the event trace. -/
structure LoopResult where
  ok : Bool
  store : Store
  trace : List Event
deriving DecidableEq

/-- The record loop of handler.py lines 46-81 together with the batch
writer semantics.  For each record in order: normalize (lines 48-65; on
failure the exception exits the writer context, which flushes the pending
buffer, and the invocation fails), stage the write (`batch.put_item`,
line 68, flushing a full buffer), then, for an anomalous record, publish a
notification (lines 71-81; a publish failure, modelled by the `pub` oracle,
likewise exits the writer context and fails the invocation). -/
def processLoop (bucket key : String) (pub : Notification → Bool) :
    List RawRecord → Store → List EnergyRecord → List Event → LoopResult
  | [], s, b, t => ⟨true, exitFlushStore s b, exitFlushTrace t b⟩
  | raw :: rest, s, b, t =>
      match normalize raw with
      | Except.error _ => ⟨false, exitFlushStore s b, exitFlushTrace t b⟩
      | Except.ok r =>
          let b1 := b ++ [r]
          let t1 := t ++ [Event.stage r]
          if r.anomaly then
            let n := mkNotif bucket key r
            if pub n then
              processLoop bucket key pub rest (stepStore s b1) (stepBuffer b1)
                (stepTrace t1 b1 ++ [Event.notify n])
            else ⟨false, exitFlushStore (stepStore s b1) (stepBuffer b1),
                  exitFlushTrace (stepTrace t1 b1) (stepBuffer b1)⟩
          else
            processLoop bucket key pub rest (stepStore s b1) (stepBuffer b1)
              (stepTrace t1 b1)

/-- The handler's success return value, handler.py lines 84-87. -/
structure Outcome where
  statusCode : Nat
  body : String
deriving DecidableEq

/-- `{'statusCode': 200, 'body': json.dumps('File processed successfully!')}` -/
def successOutcome : Outcome :=
  ⟨200, "\"File processed successfully!\""⟩

instance {α : Type} [DecidableEq α] : DecidableEq (Except Unit α) := fun a b =>
  match a, b with
  | Except.ok x, Except.ok y =>
      if h : x = y then isTrue (by rw [h]) else isFalse (by simp [h])
  | Except.error x, Except.error y => isTrue rfl
  | Except.ok _, Except.error _ => isFalse (by simp)
  | Except.error _, Except.ok _ => isFalse (by simp)

/-- Result of one whole invocation: the returned outcome or the propagated
exception, the final durable store, and the event trace. -/
structure RunResult where
  result : Except Unit Outcome
  store : Store
  trace : List Event
deriving DecidableEq

/-- One invocation of `process_s3_file_handler`.  `content` is the fetched
and parsed batch file; `none` models a fetch or JSON-parse failure (lines
41-43), which raises before the writer context opens, leaving the store
unchanged.  The surrounding `try ... except` (lines 26, 89-93) logs and
re-raises unchanged, so every exception from the body surfaces as
`Except.error` and a completed run returns the fixed success outcome. -/
def runPipeline (bucket key : String) (pub : Notification → Bool)
    (content : Option (List RawRecord)) (s : Store) : RunResult :=
  match content with
  | none => ⟨Except.error (), s, []⟩
  | some raws =>
      let res := processLoop bucket key pub raws s [] []
      ⟨if res.ok then Except.ok successOutcome else Except.error (), res.store, res.trace⟩

/-- The records the loop durably writes (in staging order), as a function of
the inputs only: everything up to the first failing record.  A record whose
notification fails to publish has itself already been staged, so it is still
flushed by the writer's exit. -/
def writtenList (bucket key : String) (pub : Notification → Bool) :
    List RawRecord → List EnergyRecord
  | [] => []
  | raw :: rest =>
      match normalize raw with
      | Except.error _ => []
      | Except.ok r =>
          if r.anomaly && !(pub (mkNotif bucket key r)) then [r]
          else r :: writtenList bucket key pub rest

/-- The successfully normalized outputs of a batch, in order. -/
def okOutputs (raws : List RawRecord) : List EnergyRecord :=
  raws.filterMap (fun raw => (normalize raw).toOption)

/-- The notifications contained in a trace, in order. -/
def notifsOf (t : List Event) : List Notification :=
  t.filterMap (fun e => match e with | Event.notify n => some n | _ => none)

/-- The `/summary` response model (`SystemSummary`, main.py lines 40-44).
The anomaly distribution is a Python dict (insertion-ordered association
list from site id to count). -/
structure SystemSummary where
  total_records : Nat
  total_anomalies : Nat
  total_sites : Nat
  site_anomaly_distribution : List (String × Nat)
deriving DecidableEq

/-- One step of `collections.Counter`: increment the entry for `s`,
appending a fresh entry when absent (Python dicts keep insertion order). -/
def counterIncr : List (String × Nat) → String → List (String × Nat)
  | [], s => [(s, 1)]
  | p :: rest, s =>
      if p.1 = s then (p.1, p.2 + 1) :: rest else p :: counterIncr rest s

/-- `Counter(iterable)` over a list of site ids. -/
def counter (l : List String) : List (String × Nat) :=
  l.foldl counterIncr []

/-- Read a count out of the distribution dict; an absent site has anomaly
count 0 (`Counter` stores no entry for it). -/
def distLookup (m : List (String × Nat)) (s : String) : Nat :=
  ((m.find? (fun p => p.1 = s)).map Prod.snd).getD 0

/-- `GET /summary` (`get_system_summary`, main.py lines 65-103) as a
function of the scanned items: zero records short-circuits to the all-zero
summary; otherwise count records, anomalous records, distinct site ids, and
anomalies per site via `Counter`. -/
def get_system_summary (items : List EnergyRecord) : SystemSummary :=
  if items.length = 0 then ⟨0, 0, 0, []⟩
  else
    let anomalies := items.filter (fun i => i.anomaly)
    ⟨items.length, anomalies.length,
     ((items.map (fun i => i.site_id)).dedup).length,
     counter (anomalies.map (fun i => i.site_id))⟩

/-- Python truthiness of an `Optional[str]` query parameter: `None` and the
empty string are falsy. -/
def truthy : Option String → Bool
  | none => false
  | some s => !s.isEmpty

/-- Lexicographic order on character lists by code point: the order DynamoDB
uses for string sort keys (`between` is inclusive). -/
def strLeAux : List Char → List Char → Bool
  | [], _ => true
  | _ :: _, [] => false
  | a :: as, b :: bs =>
      if a.toNat < b.toNat then true
      else if b.toNat < a.toNat then false
      else strLeAux as bs

/-- Lexicographic comparison of two strings. -/
def strLe (a b : String) : Bool :=
  strLeAux a.data b.data

/-- `GET /records/{site_id}` (`get_records_by_site`, main.py lines
115-134) as a function of the table contents: the key condition selects the
site's records, and only when both `start_date` and `end_date` are truthy
is the inclusive `between` bound added. -/
def get_records_by_site (items : List EnergyRecord) (site_id : String)
    (start_date end_date : Option String) : List EnergyRecord :=
  if truthy start_date && truthy end_date then
    items.filter (fun r =>
      r.site_id == site_id
        && strLe (start_date.getD "") r.timestamp
        && strLe r.timestamp (end_date.getD ""))
  else
    items.filter (fun r => r.site_id == site_id)

/-- Some record of `l` shares `x`'s key. -/
def hasKey (l : List EnergyRecord) (x : EnergyRecord) : Bool :=
  l.any (fun r => keyEq x r)

/-- The anomalous records whose notification is actually published before
the run stops, in order, as a function of the inputs only. -/
def notifiedList (bucket key : String) (pub : Notification → Bool) :
    List RawRecord → List EnergyRecord
  | [] => []
  | raw :: rest =>
      match normalize raw with
      | Except.error _ => []
      | Except.ok r =>
          if r.anomaly then
            if pub (mkNotif bucket key r) then r :: notifiedList bucket key pub rest
            else []
          else notifiedList bucket key pub rest

/-- The records staged in a trace, most recent first. -/
def stagesRev (t : List Event) : List EnergyRecord :=
  (t.filterMap (fun e => match e with | Event.stage r => some r | _ => none)).reverse

/-- Scan a trace left to right checking that every notification corresponds
to a record staged strictly earlier in the trace (or in the ambient `staged`
set). -/
def notifySafe (bucket key : String) : List EnergyRecord → List Event → Bool
  | _, [] => true
  | staged, Event.stage r :: rest => notifySafe bucket key (r :: staged) rest
  | staged, Event.flush _ :: rest => notifySafe bucket key staged rest
  | staged, Event.notify n :: rest =>
      staged.any (fun r => decide (mkNotif bucket key r = n)) &&
        notifySafe bucket key staged rest

/-- Does the event durably submit a batch write? -/
def Event.isFlush : Event → Bool
  | Event.flush _ => true
  | _ => false

/-- Is the event a notification? -/
def Event.isNotify : Event → Bool
  | Event.notify _ => true
  | _ => false

/-- A notification channel that accepts every message. -/
def pubAll : Notification → Bool := fun _ => true

/-- First record of the worked example in the spec (section 8). -/
def rawA : RawRecord :=
  ⟨some "s1", some "T1", some (JVal.num 100), some (JVal.num 30)⟩

/-- Second record of the worked example in the spec (section 8): anomalous
because its generated energy is negative. -/
def rawB : RawRecord :=
  ⟨some "s1", some "T2", some (JVal.num (-5)), some (JVal.num 10)⟩

/-- The normalization output of `rawA`. -/
def recA : EnergyRecord := ⟨"s1", "T1", 100, 30, 70, false⟩

/-- The normalization output of `rawB`. -/
def recB : EnergyRecord := ⟨"s1", "T2", -5, 10, -15, true⟩

/-- A malformed raw record: the `energy_generated_kwh` key is missing. -/
def rawBad : RawRecord := ⟨some "s1", some "T3", none, some (JVal.num 1)⟩

/-- A well-formed, non-anomalous raw record. -/
def rawGood : RawRecord := ⟨some "s", some "T", some (JVal.num 1), some (JVal.num 1)⟩

/-- A well-formed raw record whose `site_id` is the empty string. -/
def rawEmptyKey : RawRecord :=
  ⟨some "", some "T1", some (JVal.num 1), some (JVal.num 2)⟩

/-! ### Store lemmas -/

theorem insertAll_nil (s : Store) : insertAll [] s = s := rfl

theorem insertAll_cons (r : EnergyRecord) (l : List EnergyRecord) (s : Store) :
    insertAll (r :: l) s = insertAll l (put_item s r) := rfl

theorem insertAll_append (a b : List EnergyRecord) (s : Store) :
    insertAll (a ++ b) s = insertAll b (insertAll a s) := by
  simp [insertAll, List.foldl_append]

theorem mem_put_item {x : EnergyRecord} {s : Store} {r : EnergyRecord}
    (h : x ∈ put_item s r) : x ∈ s ∨ x = r := by
  rcases List.mem_append.1 h with h1 | h1
  · exact Or.inl (List.mem_filter.1 h1).1
  · exact Or.inr (List.mem_singleton.1 h1)

theorem mem_insertAll {x : EnergyRecord} {l : List EnergyRecord} {s : Store}
    (h : x ∈ insertAll l s) : x ∈ s ∨ x ∈ l := by
  induction l generalizing s with
  | nil => exact Or.inl h
  | cons r rest ih =>
      rcases ih (s := put_item s r) h with h1 | h1
      · rcases mem_put_item h1 with h2 | h2
        · exact Or.inl h2
        · exact Or.inr (h2 ▸ List.mem_cons_self r rest)
      · exact Or.inr (List.mem_cons_of_mem r h1)

theorem keyEq_self (x : EnergyRecord) : keyEq x x = true := by
  simp [keyEq]

theorem hasKey_of_mem {x : EnergyRecord} {l : List EnergyRecord}
    (h : x ∈ l) : hasKey l x = true :=
  List.any_eq_true.2 ⟨x, h, keyEq_self x⟩

theorem insertAll_eq_filter_append (l : List EnergyRecord) (m : Store) :
    insertAll l m = m.filter (fun x => !(hasKey l x)) ++ insertAll l [] := by
  induction l generalizing m with
  | nil => simp [insertAll, hasKey]
  | cons r rest ih =>
      rw [insertAll_cons, ih (put_item m r), insertAll_cons, ih (put_item [] r)]
      simp only [put_item, List.filter_append, List.filter_filter]
      rw [List.append_assoc]
      congr 1
      apply List.filter_congr
      intro x _
      simp [hasKey, Bool.not_or, Bool.and_comm]

theorem mem_insertAll_nil_hasKey {x : EnergyRecord} {l : List EnergyRecord}
    (h : x ∈ insertAll l []) : hasKey l x = true := by
  rcases mem_insertAll h with h1 | h1
  · cases h1
  · exact hasKey_of_mem h1

/-- Writing the same list of records twice leaves the store exactly as
writing it once: every key written is overwritten with the same payload. -/
theorem insertAll_idem (l : List EnergyRecord) (m : Store) :
    insertAll l (insertAll l m) = insertAll l m := by
  rw [insertAll_eq_filter_append l (insertAll l m), insertAll_eq_filter_append l m,
    List.filter_append, List.filter_filter]
  have h1 : (insertAll l []).filter (fun x => !(hasKey l x)) = [] := by
    apply List.filter_eq_nil_iff.2
    intro x hx
    simp [mem_insertAll_nil_hasKey hx]
  have h2 : m.filter (fun x => !(hasKey l x) && !(hasKey l x)) =
      m.filter (fun x => !(hasKey l x)) := by
    apply List.filter_congr
    intro x _
    simp
  rw [h1, h2, List.append_nil]

/-! ### Normalization lemmas -/

/-- Inversion of a successful normalization: the identity fields are copied
verbatim, the energy fields are the raw numeric values, and the derived
fields are computed by `round2` and `classify`. -/
theorem normalize_ok {raw : RawRecord} {r : EnergyRecord}
    (h : normalize raw = Except.ok r) :
    raw.site_id = some r.site_id ∧ raw.timestamp = some r.timestamp ∧
    raw.energy_generated_kwh = some (JVal.num r.energy_generated_kwh) ∧
    raw.energy_consumed_kwh = some (JVal.num r.energy_consumed_kwh) ∧
    r.net_energy_kwh = round2 (r.energy_generated_kwh - r.energy_consumed_kwh) ∧
    r.anomaly = classify r.energy_generated_kwh r.energy_consumed_kwh := by
  obtain ⟨sO, tO, gO, cO⟩ := raw
  rcases sO with _ | sid <;> rcases tO with _ | ts <;>
    rcases gO with _ | gv <;> try rcases gv with g | gs | _
  all_goals rcases cO with _ | cv <;> try rcases cv with c | cs | _
  all_goals simp only [normalize] at h
  all_goals first
    | (injection h with h
       subst h
       exact ⟨rfl, rfl, rfl, rfl, rfl, rfl⟩)
    | cases h

/-! ### Pipeline loop lemmas -/

theorem exitFlushStore_eq (s : Store) (b : List EnergyRecord) :
    exitFlushStore s b = insertAll b s := by
  cases b <;> simp [exitFlushStore, insertAll]

/-- The virtual store (buffer applied on top of the durable store) is not
changed by the decision whether `batch.put_item` flushes now or later. -/
theorem step_virtual (s : Store) (b1 : List EnergyRecord) :
    insertAll (stepBuffer b1) (stepStore s b1) = insertAll b1 s := by
  unfold stepStore stepBuffer
  split <;> simp [insertAll]

theorem insertAll_singleton (r : EnergyRecord) (s : Store) :
    insertAll [r] s = put_item s r := rfl

theorem insertAll_snoc (b : List EnergyRecord) (r : EnergyRecord) (s : Store) :
    insertAll (b ++ [r]) s = put_item (insertAll b s) r := by
  rw [insertAll_append]; rfl

/-- The durable store produced by the record loop: the staged prefix
`writtenList` is applied, in order, on top of the buffer contents and the
initial store — independent of where the flush boundaries fall. -/
theorem processLoop_store (bucket key : String) (pub : Notification → Bool)
    (raws : List RawRecord) : ∀ s b t,
    (processLoop bucket key pub raws s b t).store =
      insertAll (writtenList bucket key pub raws) (insertAll b s) := by
  induction raws with
  | nil => intro s b t; simp [processLoop, writtenList, exitFlushStore_eq, insertAll]
  | cons raw rest ih =>
      intro s b t
      cases h : normalize raw with
      | error e => simp [processLoop, h, writtenList, exitFlushStore_eq, insertAll]
      | ok r =>
          cases ha : r.anomaly with
          | false =>
              simp [processLoop, h, ha, writtenList, ih, step_virtual,
                insertAll_snoc, insertAll_cons, insertAll_singleton]
          | true =>
              cases hp : pub (mkNotif bucket key r) with
              | true =>
                  simp [processLoop, h, ha, hp, writtenList, ih, step_virtual,
                    insertAll_snoc, insertAll_cons, insertAll_singleton]
              | false =>
                  simp [processLoop, h, ha, hp, writtenList, exitFlushStore_eq,
                    step_virtual, insertAll_snoc, insertAll_cons, insertAll_singleton,
                    insertAll_nil]

/-- The loop's control flow and trace never read the durable store: only the
buffer, the raw records and the publish outcomes determine them. -/
theorem processLoop_indep (bucket key : String) (pub : Notification → Bool)
    (raws : List RawRecord) : ∀ s s' b t,
    (processLoop bucket key pub raws s b t).ok =
        (processLoop bucket key pub raws s' b t).ok ∧
      (processLoop bucket key pub raws s b t).trace =
        (processLoop bucket key pub raws s' b t).trace := by
  induction raws with
  | nil => intro s s' b t; simp [processLoop]
  | cons raw rest ih =>
      intro s s' b t
      cases h : normalize raw with
      | error e => simp [processLoop, h]
      | ok r =>
          cases ha : r.anomaly with
          | false =>
              have := ih (stepStore s (b ++ [r])) (stepStore s' (b ++ [r]))
                (stepBuffer (b ++ [r])) (stepTrace (t ++ [Event.stage r]) (b ++ [r]))
              simpa [processLoop, h, ha] using this
          | true =>
              cases hp : pub (mkNotif bucket key r) with
              | true =>
                  have := ih (stepStore s (b ++ [r])) (stepStore s' (b ++ [r]))
                    (stepBuffer (b ++ [r]))
                    (stepTrace (t ++ [Event.stage r]) (b ++ [r]) ++
                      [Event.notify (mkNotif bucket key r)])
                  simpa [processLoop, h, ha, hp] using this
              | false => simp [processLoop, h, ha, hp]

theorem notifsOf_append (a b : List Event) :
    notifsOf (a ++ b) = notifsOf a ++ notifsOf b := by
  simp [notifsOf]

theorem notifsOf_exitFlushTrace (t : List Event) (b : List EnergyRecord) :
    notifsOf (exitFlushTrace t b) = notifsOf t := by
  unfold exitFlushTrace
  split <;> simp [notifsOf_append, notifsOf]

theorem notifsOf_stepTrace (t1 : List Event) (b1 : List EnergyRecord) :
    notifsOf (stepTrace t1 b1) = notifsOf t1 := by
  unfold stepTrace
  split <;> simp [notifsOf_append, notifsOf]

theorem notifsOf_snoc_stage (t : List Event) (r : EnergyRecord) :
    notifsOf (t ++ [Event.stage r]) = notifsOf t := by
  simp [notifsOf_append, notifsOf]

theorem notifsOf_snoc_notify (t : List Event) (n : Notification) :
    notifsOf (t ++ [Event.notify n]) = notifsOf t ++ [n] := by
  simp [notifsOf_append, notifsOf]

/-- The notifications of a run's trace are exactly one `mkNotif` per record
of `notifiedList`, in order. -/
theorem processLoop_notifs (bucket key : String) (pub : Notification → Bool)
    (raws : List RawRecord) : ∀ s b t,
    notifsOf (processLoop bucket key pub raws s b t).trace =
      notifsOf t ++ (notifiedList bucket key pub raws).map (mkNotif bucket key) := by
  induction raws with
  | nil => intro s b t; simp [processLoop, notifiedList, notifsOf_exitFlushTrace]
  | cons raw rest ih =>
      intro s b t
      cases h : normalize raw with
      | error e => simp [processLoop, h, notifiedList, notifsOf_exitFlushTrace]
      | ok r =>
          cases ha : r.anomaly with
          | false =>
              have hred : (processLoop bucket key pub (raw :: rest) s b t).trace =
                  (processLoop bucket key pub rest (stepStore s (b ++ [r]))
                    (stepBuffer (b ++ [r]))
                    (stepTrace (t ++ [Event.stage r]) (b ++ [r]))).trace := by
                simp [processLoop, h, ha]
              rw [hred, ih, notifsOf_stepTrace, notifsOf_snoc_stage]
              simp [notifiedList, h, ha]
          | true =>
              cases hp : pub (mkNotif bucket key r) with
              | true =>
                  have hred : (processLoop bucket key pub (raw :: rest) s b t).trace =
                      (processLoop bucket key pub rest (stepStore s (b ++ [r]))
                        (stepBuffer (b ++ [r]))
                        (stepTrace (t ++ [Event.stage r]) (b ++ [r]) ++
                          [Event.notify (mkNotif bucket key r)])).trace := by
                    simp [processLoop, h, ha, hp]
                  rw [hred, ih, notifsOf_snoc_notify, notifsOf_stepTrace,
                    notifsOf_snoc_stage]
                  simp [notifiedList, h, ha, hp]
              | false =>
                  simp [processLoop, h, ha, hp, notifiedList, notifsOf_exitFlushTrace,
                    notifsOf_stepTrace, notifsOf_snoc_stage]

theorem okOutputs_cons_ok {raw : RawRecord} {r : EnergyRecord}
    (h : normalize raw = Except.ok r) (rest : List RawRecord) :
    okOutputs (raw :: rest) = r :: okOutputs rest := by
  simp [okOutputs, h, Except.toOption]

/-- The loop completes without an exception exactly when every record
normalizes and every published notification is accepted. -/
theorem processLoop_ok_iff (bucket key : String) (pub : Notification → Bool)
    (raws : List RawRecord) : ∀ s b t,
    (processLoop bucket key pub raws s b t).ok = true ↔
      ((∀ raw ∈ raws, ∃ r, normalize raw = Except.ok r) ∧
       (∀ r ∈ okOutputs raws, r.anomaly = true →
          pub (mkNotif bucket key r) = true)) := by
  induction raws with
  | nil => intro s b t; simp [processLoop, okOutputs]
  | cons raw rest ih =>
      intro s b t
      cases h : normalize raw with
      | error e =>
          simp only [processLoop, h]
          constructor
          · intro hx; cases hx
          · rintro ⟨hall, _⟩
            obtain ⟨r, hr⟩ := hall raw (List.mem_cons_self raw rest)
            rw [h] at hr
            cases hr
      | ok r =>
          cases ha : r.anomaly with
          | false =>
              have hred : (processLoop bucket key pub (raw :: rest) s b t).ok =
                  (processLoop bucket key pub rest (stepStore s (b ++ [r]))
                    (stepBuffer (b ++ [r]))
                    (stepTrace (t ++ [Event.stage r]) (b ++ [r]))).ok := by
                simp [processLoop, h, ha]
              rw [hred, ih]
              simp [okOutputs_cons_ok h, h, ha]
          | true =>
              cases hp : pub (mkNotif bucket key r) with
              | true =>
                  have hred : (processLoop bucket key pub (raw :: rest) s b t).ok =
                      (processLoop bucket key pub rest (stepStore s (b ++ [r]))
                        (stepBuffer (b ++ [r]))
                        (stepTrace (t ++ [Event.stage r]) (b ++ [r]) ++
                          [Event.notify (mkNotif bucket key r)])).ok := by
                    simp [processLoop, h, ha, hp]
                  rw [hred, ih]
                  simp [okOutputs_cons_ok h, h, ha, hp]
              | false =>
                  simp only [processLoop, h, ha, hp]
                  constructor
                  · intro hx; cases hx
                  · rintro ⟨_, hpc⟩
                    have hm : r ∈ okOutputs (raw :: rest) := by
                      rw [okOutputs_cons_ok h]
                      exact List.mem_cons_self r (okOutputs rest)
                    have hcon := hpc r hm ha
                    rw [hp] at hcon
                    cases hcon

/-- Every durably written record is a normalization output of some input
record. -/
theorem writtenList_mem {x : EnergyRecord} (bucket key : String)
    (pub : Notification → Bool) :
    ∀ raws, x ∈ writtenList bucket key pub raws →
      ∃ raw ∈ raws, normalize raw = Except.ok x := by
  intro raws
  induction raws with
  | nil => simp [writtenList]
  | cons raw rest ih =>
      intro hx
      cases h : normalize raw with
      | error e => simp [writtenList, h] at hx
      | ok r =>
          simp only [writtenList, h] at hx
          split at hx
          · rcases List.mem_singleton.1 hx with rfl
            exact ⟨raw, List.mem_cons_self raw rest, h⟩
          · rcases List.mem_cons.1 hx with rfl | h1
            · exact ⟨raw, List.mem_cons_self raw rest, h⟩
            · obtain ⟨raw', hm, hn⟩ := ih h1
              exact ⟨raw', List.mem_cons_of_mem raw hm, hn⟩

/-- On a batch where every record normalizes and every notification is
accepted, the loop stages and durably writes every output. -/
theorem writtenList_of_valid (bucket key : String) (pub : Notification → Bool) :
    ∀ raws, (∀ raw ∈ raws, ∃ r, normalize raw = Except.ok r) →
      (∀ r ∈ okOutputs raws, r.anomaly = true → pub (mkNotif bucket key r) = true) →
      writtenList bucket key pub raws = okOutputs raws := by
  intro raws
  induction raws with
  | nil => intro _ _; simp [writtenList, okOutputs]
  | cons raw rest ih =>
      intro hv hp
      obtain ⟨r, hr⟩ := hv raw (List.mem_cons_self raw rest)
      have hrest : writtenList bucket key pub rest = okOutputs rest := by
        apply ih
        · intro raw' hm; exact hv raw' (List.mem_cons_of_mem raw hm)
        · intro r' hm ha
          apply hp r' _ ha
          rw [okOutputs_cons_ok hr]
          exact List.mem_cons_of_mem r hm
      have hcond : (r.anomaly && !(pub (mkNotif bucket key r))) = false := by
        cases ha : r.anomaly with
        | false => simp
        | true =>
            have := hp r (by rw [okOutputs_cons_ok hr]; exact List.mem_cons_self _ _) ha
            simp [this]
      simp [writtenList, hr, hcond, hrest, okOutputs_cons_ok hr]

/-- On such a batch, exactly the anomalous outputs are notified, in order. -/
theorem notifiedList_of_valid (bucket key : String) (pub : Notification → Bool) :
    ∀ raws, (∀ raw ∈ raws, ∃ r, normalize raw = Except.ok r) →
      (∀ r ∈ okOutputs raws, r.anomaly = true → pub (mkNotif bucket key r) = true) →
      notifiedList bucket key pub raws =
        (okOutputs raws).filter (fun r => r.anomaly) := by
  intro raws
  induction raws with
  | nil => intro _ _; simp [notifiedList, okOutputs]
  | cons raw rest ih =>
      intro hv hp
      obtain ⟨r, hr⟩ := hv raw (List.mem_cons_self raw rest)
      have hrest : notifiedList bucket key pub rest =
          (okOutputs rest).filter (fun r => r.anomaly) := by
        apply ih
        · intro raw' hm; exact hv raw' (List.mem_cons_of_mem raw hm)
        · intro r' hm ha
          apply hp r' _ ha
          rw [okOutputs_cons_ok hr]
          exact List.mem_cons_of_mem r hm
      cases ha : r.anomaly with
      | false => simp [notifiedList, hr, ha, hrest, okOutputs_cons_ok hr]
      | true =>
          have hpr := hp r (by rw [okOutputs_cons_ok hr]; exact List.mem_cons_self _ _) ha
          simp [notifiedList, hr, ha, hpr, hrest, okOutputs_cons_ok hr]

/-- With a malformed record in the batch, only the well-formed prefix before
it is staged: everything from the malformed record on is not written. -/
theorem writtenList_prefix_fail (bucket key : String) (pub : Notification → Bool)
    (bad : RawRecord) (rest : List RawRecord) (hbad : normalize bad = Except.error ()) :
    ∀ pre, (∀ raw ∈ pre, ∃ r, normalize raw = Except.ok r) →
      (∀ r ∈ okOutputs pre, r.anomaly = true → pub (mkNotif bucket key r) = true) →
      writtenList bucket key pub (pre ++ bad :: rest) = okOutputs pre := by
  intro pre
  induction pre with
  | nil => intro _ _; simp [writtenList, hbad, okOutputs]
  | cons raw pre' ih =>
      intro hv hp
      obtain ⟨r, hr⟩ := hv raw (List.mem_cons_self raw pre')
      have hrest : writtenList bucket key pub (pre' ++ bad :: rest) = okOutputs pre' := by
        apply ih
        · intro raw' hm; exact hv raw' (List.mem_cons_of_mem raw hm)
        · intro r' hm ha
          apply hp r' _ ha
          rw [okOutputs_cons_ok hr]
          exact List.mem_cons_of_mem r hm
      have hcond : (r.anomaly && !(pub (mkNotif bucket key r))) = false := by
        cases ha : r.anomaly with
        | false => simp
        | true =>
            have := hp r (by rw [okOutputs_cons_ok hr]; exact List.mem_cons_self _ _) ha
            simp [this]
      simp [writtenList, hr, hcond, hrest, okOutputs_cons_ok hr]

/-! ### Ordering of staging and notification in the trace -/

theorem stagesRev_append (a b : List Event) :
    stagesRev (a ++ b) = stagesRev b ++ stagesRev a := by
  simp [stagesRev]

theorem stagesRev_stepTrace (t1 : List Event) (b1 : List EnergyRecord) :
    stagesRev (stepTrace t1 b1) = stagesRev t1 := by
  unfold stepTrace
  split <;> simp [stagesRev]

theorem notifySafe_append (bucket key : String) :
    ∀ (a : List Event) (S : List EnergyRecord) (b : List Event),
      notifySafe bucket key S (a ++ b) =
        (notifySafe bucket key S a &&
         notifySafe bucket key (stagesRev a ++ S) b) := by
  intro a
  induction a with
  | nil => intro S b; simp [notifySafe, stagesRev]
  | cons e a ih =>
      intro S b
      cases e with
      | stage r =>
          rw [List.cons_append]
          show notifySafe bucket key (r :: S) (a ++ b) = _
          rw [ih (r :: S) b]
          have hs : stagesRev (Event.stage r :: a) ++ S = stagesRev a ++ (r :: S) := by
            simp [stagesRev]
          rw [hs]
          rfl
      | flush items =>
          rw [List.cons_append]
          show notifySafe bucket key S (a ++ b) = _
          rw [ih S b]
          have hs : stagesRev (Event.flush items :: a) = stagesRev a := by
            simp [stagesRev]
          rw [hs]
          rfl
      | notify n =>
          rw [List.cons_append]
          show (_ && notifySafe bucket key S (a ++ b)) = _
          rw [ih S b]
          have hs : stagesRev (Event.notify n :: a) = stagesRev a := by
            simp [stagesRev]
          rw [hs]
          show _ = ((_ && notifySafe bucket key S a) && _)
          rw [Bool.and_assoc]

theorem notifySafe_exitFlushTrace (bucket key : String) (S : List EnergyRecord)
    (t : List Event) (b : List EnergyRecord)
    (h : notifySafe bucket key S t = true) :
    notifySafe bucket key S (exitFlushTrace t b) = true := by
  unfold exitFlushTrace
  split
  · exact h
  · rw [notifySafe_append]
    simp [h, notifySafe]

theorem notifySafe_stepTrace (bucket key : String) (S : List EnergyRecord)
    (t1 : List Event) (b1 : List EnergyRecord)
    (h : notifySafe bucket key S t1 = true) :
    notifySafe bucket key S (stepTrace t1 b1) = true := by
  unfold stepTrace
  split
  · rw [notifySafe_append]
    simp [h, notifySafe]
  · exact h

theorem notifySafe_snoc_stage (bucket key : String) (S : List EnergyRecord)
    (t : List Event) (r : EnergyRecord)
    (h : notifySafe bucket key S t = true) :
    notifySafe bucket key S (t ++ [Event.stage r]) = true := by
  rw [notifySafe_append]
  simp [h, notifySafe]

theorem notifySafe_snoc_notify (bucket key : String) (S : List EnergyRecord)
    (t : List Event) (r : EnergyRecord)
    (h : notifySafe bucket key S t = true)
    (hmem : r ∈ stagesRev t ++ S) :
    notifySafe bucket key S (t ++ [Event.notify (mkNotif bucket key r)]) = true := by
  rw [notifySafe_append]
  have hany : (stagesRev t ++ S).any
      (fun x => decide (mkNotif bucket key x = mkNotif bucket key r)) = true :=
    List.any_eq_true.2 ⟨r, hmem, by simp⟩
  simp [h, notifySafe, hany]

/-- The record loop never emits a notification for a record that has not
already been staged earlier in the trace. -/
theorem processLoop_notifySafe (bucket key : String) (pub : Notification → Bool)
    (raws : List RawRecord) : ∀ s b t S,
    notifySafe bucket key S t = true →
    notifySafe bucket key S (processLoop bucket key pub raws s b t).trace = true := by
  induction raws with
  | nil =>
      intro s b t S h
      simpa [processLoop] using notifySafe_exitFlushTrace bucket key S t b h
  | cons raw rest ih =>
      intro s b t S h
      cases hn : normalize raw with
      | error e =>
          simpa [processLoop, hn] using notifySafe_exitFlushTrace bucket key S t b h
      | ok r =>
          have hstage : notifySafe bucket key S
              (stepTrace (t ++ [Event.stage r]) (b ++ [r])) = true :=
            notifySafe_stepTrace bucket key S _ _
              (notifySafe_snoc_stage bucket key S t r h)
          have hrmem : r ∈ stagesRev (stepTrace (t ++ [Event.stage r]) (b ++ [r])) ++ S := by
            rw [stagesRev_stepTrace, stagesRev_append]
            simp [stagesRev]
          cases ha : r.anomaly with
          | false =>
              have := ih (stepStore s (b ++ [r])) (stepBuffer (b ++ [r]))
                (stepTrace (t ++ [Event.stage r]) (b ++ [r])) S hstage
              simpa [processLoop, hn, ha] using this
          | true =>
              cases hp : pub (mkNotif bucket key r) with
              | true =>
                  have hsafe2 := notifySafe_snoc_notify bucket key S _ r hstage hrmem
                  have := ih (stepStore s (b ++ [r])) (stepBuffer (b ++ [r]))
                    (stepTrace (t ++ [Event.stage r]) (b ++ [r]) ++
                      [Event.notify (mkNotif bucket key r)]) S hsafe2
                  simpa [processLoop, hn, ha, hp] using this
              | false =>
                  have := notifySafe_exitFlushTrace bucket key S _
                    (stepBuffer (b ++ [r])) hstage
                  simpa [processLoop, hn, ha, hp] using this

/-! ### Counter lemmas -/

theorem distLookup_counterIncr (a s : String) :
    ∀ m, distLookup (counterIncr m a) s =
      distLookup m s + (if a = s then 1 else 0) := by
  intro m
  induction m with
  | nil =>
      by_cases hc : a = s <;> simp [counterIncr, distLookup, List.find?, hc]
  | cons p m' ih =>
      by_cases hpa : p.1 = a
      · by_cases has : a = s
        · simp [counterIncr, distLookup, List.find?, hpa, has, hpa.trans has]
        · have hps : ¬(p.1 = s) := fun hx => has (hpa.symm.trans hx)
          simp [counterIncr, distLookup, List.find?, hpa, has, hps]
      · by_cases hps : p.1 = s
        · have has : ¬(a = s) := fun hx => hpa (hps.trans hx.symm)
          have hsa : ¬(s = a) := fun hx => has hx.symm
          simp [counterIncr, distLookup, List.find?, hpa, hps, has, hsa]
        · simpa [counterIncr, distLookup, List.find?, hpa, hps] using ih

theorem distLookup_counter (l : List String) (s : String) :
    distLookup (counter l) s = l.count s := by
  suffices h : ∀ m, distLookup (l.foldl counterIncr m) s = distLookup m s + l.count s by
    simpa [counter, distLookup] using h []
  induction l with
  | nil => intro m; simp
  | cons a l ih =>
      intro m
      rw [List.foldl_cons, ih, distLookup_counterIncr, List.count_cons]
      by_cases hc : a = s <;> simp [hc, Nat.add_assoc, Nat.add_comm]

/-! ### Claim theorems -/

/-- Claim C1: for every pair of numeric inputs, the anomaly classification
computed during ingestion equals `classify generated consumed`, and
`classify g c` is true exactly when `g < 0` or `c < 0`.  `classify` is a
Lean function of the two numbers alone, hence pure with no side effects. -/
theorem c1_classify_anomaly (g c : ℚ) (raw : RawRecord) (r : EnergyRecord)
    (hg : raw.energy_generated_kwh = some (JVal.num g))
    (hc : raw.energy_consumed_kwh = some (JVal.num c))
    (hok : normalize raw = Except.ok r) :
    r.anomaly = classify g c ∧ (classify g c = true ↔ (g < 0 ∨ c < 0)) := by
  obtain ⟨_, _, hg', hc', _, hanom⟩ := normalize_ok hok
  rw [hg] at hg'
  rw [hc] at hc'
  injection hg' with hg''
  injection hc' with hc''
  injection hg'' with hg3
  injection hc'' with hc3
  constructor
  · rw [hanom, hg3, hc3]
  · simp [classify]

/-- Witness for C1 at the anomalous record of the spec's worked example. -/
theorem c1_classify_anomaly_witness :
    recB.anomaly = classify (-5) 10 ∧
      (classify (-5) 10 = true ↔ ((-5 : ℚ) < 0 ∨ (10 : ℚ) < 0)) :=
  c1_classify_anomaly (-5) 10 rawB recB (by rfl) (by rfl)
    (by with_unfolding_all decide)

/-- Claim C2: every record readable from the durable store after a pipeline
run (started on an empty store) carries `net_energy_kwh` exactly equal to
`round2 (generated - consumed)` of its own stored energy values, which are
the raw input values; re-reading is `lookupStore` and returns the stored
record unchanged. -/
theorem c2_net_energy_round2 (bucket key : String) (pub : Notification → Bool)
    (raws : List RawRecord) (sid ts : String) (r : EnergyRecord)
    (h : lookupStore ((runPipeline bucket key pub (some raws) []).store) sid ts =
      some r) :
    r.net_energy_kwh = round2 (r.energy_generated_kwh - r.energy_consumed_kwh) := by
  have hmem : r ∈ (runPipeline bucket key pub (some raws) []).store :=
    List.mem_of_find?_eq_some h
  have hstore : (runPipeline bucket key pub (some raws) []).store =
      insertAll (writtenList bucket key pub raws) [] := by
    show (processLoop bucket key pub raws [] [] []).store = _
    rw [processLoop_store]
    rfl
  rw [hstore] at hmem
  rcases mem_insertAll hmem with h1 | h1
  · cases h1
  · obtain ⟨raw, _, hn⟩ := writtenList_mem bucket key pub raws h1
    exact (normalize_ok hn).2.2.2.2.1

/-- Witness for C2: reading back the first record of the spec's worked
example. -/
theorem c2_net_energy_round2_witness :
    recA.net_energy_kwh =
      round2 (recA.energy_generated_kwh - recA.energy_consumed_kwh) :=
  c2_net_energy_round2 "b" "k" pubAll [rawA, rawB] "s1" "T1" recA
    (by with_unfolding_all decide)

/-- Claim C9: `getSummary` returns the record count, the anomaly count, the
distinct-site count, and a per-site anomaly distribution agreeing with the
anomaly count of every site; on an empty store it returns all zeros and an
empty distribution. -/
theorem c9_summary_correct (items : List EnergyRecord) :
    (get_system_summary items).total_records = items.length ∧
    (get_system_summary items).total_anomalies =
      items.countP (fun i => i.anomaly) ∧
    (get_system_summary items).total_sites =
      ((items.map (fun i => i.site_id)).toFinset).card ∧
    (∀ s, distLookup (get_system_summary items).site_anomaly_distribution s =
      items.countP (fun i => i.anomaly && i.site_id == s)) ∧
    get_system_summary [] = ⟨0, 0, 0, []⟩ := by
  refine ⟨?_, ?_, ?_, ?_, rfl⟩
  · cases items with
    | nil => simp [get_system_summary]
    | cons i l => simp [get_system_summary]
  · cases items with
    | nil => simp [get_system_summary]
    | cons i l =>
        simp [get_system_summary, List.countP_eq_length_filter]
  · cases items with
    | nil => simp [get_system_summary]
    | cons i l =>
        have hts : (get_system_summary (i :: l)).total_sites =
            (((i :: l).map (fun x => x.site_id)).dedup).length := by
          simp only [get_system_summary]
          rw [if_neg (by simp)]
        rw [hts, ← List.card_toFinset]
  · intro s
    cases items with
    | nil => simp [get_system_summary, distLookup, List.find?]
    | cons i l =>
        show distLookup (counter (((i :: l).filter (fun x => x.anomaly)).map
          (fun x => x.site_id))) s = _
        rw [distLookup_counter, List.count_eq_countP, List.countP_map,
          List.countP_filter]
        apply List.countP_congr
        intro x _
        simp [Function.comp, Bool.and_comm]

/-- Claim C10: in `GET /records/{site_id}`, the time-range restriction is
applied only when both bounds are given; giving exactly one of
`start_date`/`end_date` returns all of the site's records, the same as
giving neither. -/
theorem c10_between_requires_both (items : List EnergyRecord) (sid sd : String) :
    get_records_by_site items sid (some sd) none =
        items.filter (fun r => r.site_id == sid) ∧
      get_records_by_site items sid none (some sd) =
        items.filter (fun r => r.site_id == sid) ∧
      get_records_by_site items sid none none =
        items.filter (fun r => r.site_id == sid) := by
  refine ⟨?_, ?_, ?_⟩ <;> simp [get_records_by_site, truthy]

/-- Claim C3 counterexample: a batch of 25 well-formed records followed by
one malformed record.  `batch.put_item` flushes the 25 buffered writes to
DynamoDB the moment the buffer reaches the batch-size limit, before the
malformed record raises, so the failed invocation leaves a durably written
record in the previously empty store — refuting "zero records from that
batch are durably written (the durable store is unchanged on error)". -/
theorem c3_counterexample :
    (runPipeline "b" "k" pubAll
        (some (List.replicate 25 rawGood ++ [rawBad])) []).result =
      Except.error () ∧
    (runPipeline "b" "k" pubAll
        (some (List.replicate 25 rawGood ++ [rawBad])) []).store =
      [⟨"s", "T", 1, 1, 0, false⟩] := by
  with_unfolding_all decide

/-- Claim C3 (amended): a batch containing a malformed record aborts the
invocation with a failure (no success outcome), the malformed record and
everything after it are not written, but the well-formed records preceding
it are durably written by the buffered batch writer. -/
theorem c3_malformed_aborts (bucket key : String) (pub : Notification → Bool)
    (pre : List RawRecord) (bad : RawRecord) (rest : List RawRecord) (s0 : Store)
    (hpre : ∀ raw ∈ pre, ∃ r, normalize raw = Except.ok r)
    (hbad : normalize bad = Except.error ())
    (hpub : ∀ r ∈ okOutputs pre, r.anomaly = true →
      pub (mkNotif bucket key r) = true) :
    (runPipeline bucket key pub (some (pre ++ bad :: rest)) s0).result =
        Except.error () ∧
      (runPipeline bucket key pub (some (pre ++ bad :: rest)) s0).store =
        insertAll (okOutputs pre) s0 := by
  have hok : (processLoop bucket key pub (pre ++ bad :: rest) s0 [] []).ok = false := by
    cases hoc : (processLoop bucket key pub (pre ++ bad :: rest) s0 [] []).ok with
    | false => rfl
    | true =>
        obtain ⟨hv, _⟩ := (processLoop_ok_iff bucket key pub _ s0 [] []).1 hoc
        obtain ⟨r, hr⟩ := hv bad (by simp)
        rw [hbad] at hr
        cases hr
  constructor
  · show (if (processLoop bucket key pub (pre ++ bad :: rest) s0 [] []).ok
        then Except.ok successOutcome else Except.error ()) = Except.error ()
    rw [hok]
    rfl
  · show (processLoop bucket key pub (pre ++ bad :: rest) s0 [] []).store = _
    rw [processLoop_store,
      writtenList_prefix_fail bucket key pub bad rest hbad pre hpre hpub]
    rfl

/-- Witness for the amended C3: one valid record, then a malformed one. -/
theorem c3_malformed_aborts_witness :
    (runPipeline "b" "k" pubAll (some ([rawA] ++ rawBad :: [])) []).result =
        Except.error () ∧
      (runPipeline "b" "k" pubAll (some ([rawA] ++ rawBad :: [])) []).store =
        insertAll (okOutputs [rawA]) [] :=
  c3_malformed_aborts "b" "k" pubAll [rawA] rawBad [] []
    (by
      intro raw hm
      rw [List.mem_singleton] at hm
      subst hm
      exact ⟨recA, by with_unfolding_all decide⟩)
    (by with_unfolding_all decide)
    (by with_unfolding_all decide)

/-- Claim C4 counterexample: two successful invocations, one on a batch with
`(N, K) = (1, 0)` and one on a batch with `(N, K) = (2, 1)`, return the
identical outcome value.  The returned IngestionOutcome therefore cannot
report `{processed: N, anomalies: K}`: the handler returns a fixed
`{statusCode: 200, body: json.dumps('File processed successfully!')}`
carrying no counts. -/
theorem c4_counterexample :
    (runPipeline "b" "k" pubAll (some [rawA]) []).result =
        (runPipeline "b" "k" pubAll (some [rawA, rawB]) []).result ∧
      (runPipeline "b" "k" pubAll (some [rawA]) []).result =
        Except.ok successOutcome ∧
      ([rawA] : List RawRecord).length = 1 ∧
      ([rawA, rawB] : List RawRecord).length = 2 ∧
      (notifsOf (runPipeline "b" "k" pubAll (some [rawA]) []).trace).length = 0 ∧
      (notifsOf (runPipeline "b" "k" pubAll (some [rawA, rawB]) []).trace).length
        = 1 := by
  with_unfolding_all decide

/-- Claim C4 (amended): a successful invocation on a batch of N valid
records with K anomalous returns the fixed success outcome (status 200, no
counts) and emits exactly K notifications — one `mkNotif` per anomalous
record in order, each carrying the record's site id, timestamp,
generated/consumed values and the source file reference. -/
theorem c4_success_notifications (bucket key : String) (pub : Notification → Bool)
    (raws : List RawRecord) (s0 : Store)
    (hv : ∀ raw ∈ raws, ∃ r, normalize raw = Except.ok r)
    (hp : ∀ r ∈ okOutputs raws, r.anomaly = true →
      pub (mkNotif bucket key r) = true) :
    (runPipeline bucket key pub (some raws) s0).result =
        Except.ok successOutcome ∧
      notifsOf (runPipeline bucket key pub (some raws) s0).trace =
        ((okOutputs raws).filter (fun r => r.anomaly)).map (mkNotif bucket key) ∧
      (notifsOf (runPipeline bucket key pub (some raws) s0).trace).length =
        ((okOutputs raws).filter (fun r => r.anomaly)).length := by
  have hok : (processLoop bucket key pub raws s0 [] []).ok = true :=
    (processLoop_ok_iff bucket key pub raws s0 [] []).2 ⟨hv, hp⟩
  have htr : notifsOf (runPipeline bucket key pub (some raws) s0).trace =
      ((okOutputs raws).filter (fun r => r.anomaly)).map (mkNotif bucket key) := by
    show notifsOf (processLoop bucket key pub raws s0 [] []).trace = _
    rw [processLoop_notifs, notifiedList_of_valid bucket key pub raws hv hp]
    rfl
  refine ⟨?_, htr, ?_⟩
  · show (if (processLoop bucket key pub raws s0 [] []).ok
        then Except.ok successOutcome else Except.error ()) = _
    rw [hok]
    rfl
  · rw [htr, List.length_map]

/-- Witness for the amended C4 on the spec's worked example: two records,
one anomalous, one notification. -/
theorem c4_success_notifications_witness :
    (runPipeline "b" "k" pubAll (some [rawA, rawB]) []).result =
        Except.ok successOutcome ∧
      notifsOf (runPipeline "b" "k" pubAll (some [rawA, rawB]) []).trace =
        ((okOutputs [rawA, rawB]).filter (fun r => r.anomaly)).map
          (mkNotif "b" "k") ∧
      (notifsOf (runPipeline "b" "k" pubAll (some [rawA, rawB]) []).trace).length =
        ((okOutputs [rawA, rawB]).filter (fun r => r.anomaly)).length :=
  c4_success_notifications "b" "k" pubAll [rawA, rawB] []
    (by
      intro raw hm
      rw [List.mem_cons, List.mem_singleton] at hm
      rcases hm with rfl | rfl
      · exact ⟨recA, by with_unfolding_all decide⟩
      · exact ⟨recB, by with_unfolding_all decide⟩)
    (by with_unfolding_all decide)

/-- Claim C5: re-running the pipeline on the same batch file leaves the
durable store exactly as one run left it (identical key+payload writes
overwrite), and the second run's result and event trace — in particular its
notifications — are identical to the first run's, so two deliveries emit at
most 2K notifications in total. -/
theorem c5_reprocess_idempotent (bucket key : String) (pub : Notification → Bool)
    (content : Option (List RawRecord)) (s0 : Store) :
    (runPipeline bucket key pub content
        ((runPipeline bucket key pub content s0).store)).store =
        (runPipeline bucket key pub content s0).store ∧
      (runPipeline bucket key pub content
          ((runPipeline bucket key pub content s0).store)).trace =
        (runPipeline bucket key pub content s0).trace ∧
      (runPipeline bucket key pub content
          ((runPipeline bucket key pub content s0).store)).result =
        (runPipeline bucket key pub content s0).result := by
  cases content with
  | none => simp [runPipeline]
  | some raws =>
      have hstore : ∀ s, (runPipeline bucket key pub (some raws) s).store =
          insertAll (writtenList bucket key pub raws) s := by
        intro s
        show (processLoop bucket key pub raws s [] []).store = _
        rw [processLoop_store]
        rfl
      have hind := processLoop_indep bucket key pub raws
        ((runPipeline bucket key pub (some raws) s0).store) s0 [] []
      refine ⟨?_, ?_, ?_⟩
      · rw [hstore, hstore, insertAll_idem]
      · exact hind.2
      · show (if (processLoop bucket key pub raws
            ((runPipeline bucket key pub (some raws) s0).store) [] []).ok
            then Except.ok successOutcome else Except.error ()) =
          (if (processLoop bucket key pub raws s0 [] []).ok
            then Except.ok successOutcome else Except.error ())
        rw [hind.1]

/-- Claim C6 counterexample: on a single-record anomalous batch, the run's
full trace is stage, then notify, then the only durable flush.  The
notification is emitted before any durable batched write is submitted,
refuting "all staged writes are submitted ... before any anomaly
notification is emitted". -/
theorem c6_counterexample :
    (runPipeline "b" "k" pubAll (some [rawB]) []).trace =
        [Event.stage recB, Event.notify (mkNotif "b" "k" recB),
         Event.flush [recB]] ∧
      ((runPipeline "b" "k" pubAll (some [rawB]) []).trace.takeWhile
          (fun e => !(Event.isFlush e))).any (fun e => Event.isNotify e) = true := by
  with_unfolding_all decide

/-- Claim C6 (amended): each record's anomaly notification is emitted only
after the record's write has been staged into the batch writer's buffer
(`batch.put_item` precedes `sns_client.publish` in the loop), although
possibly before the staged write is durably submitted. -/
theorem c6_notify_after_stage (bucket key : String) (pub : Notification → Bool)
    (content : Option (List RawRecord)) (s0 : Store) :
    notifySafe bucket key [] (runPipeline bucket key pub content s0).trace = true := by
  cases content with
  | none => simp [runPipeline, notifySafe]
  | some raws =>
      exact processLoop_notifySafe bucket key pub raws s0 [] [] [] rfl

/-- Claim C7: the invocation returns a success outcome exactly when the file
was fetched and parsed, every record normalized, and every emitted
notification was accepted by the channel; any failure at any step makes the
whole invocation fail (the `try ... except` re-raises, converting nothing
into a partial success). -/
theorem c7_error_propagation (bucket key : String) (pub : Notification → Bool)
    (content : Option (List RawRecord)) (s0 : Store) :
    (∃ o, (runPipeline bucket key pub content s0).result = Except.ok o) ↔
      (∃ raws, content = some raws ∧
        (∀ raw ∈ raws, ∃ r, normalize raw = Except.ok r) ∧
        (∀ r ∈ okOutputs raws, r.anomaly = true →
          pub (mkNotif bucket key r) = true)) := by
  cases content with
  | none => simp [runPipeline]
  | some raws =>
      constructor
      · rintro ⟨o, ho⟩
        refine ⟨raws, rfl, ?_⟩
        cases hok : (processLoop bucket key pub raws s0 [] []).ok with
        | true => exact (processLoop_ok_iff bucket key pub raws s0 [] []).1 hok
        | false =>
            exfalso
            have : (runPipeline bucket key pub (some raws) s0).result =
                Except.error () := by
              show (if (processLoop bucket key pub raws s0 [] []).ok
                  then Except.ok successOutcome else Except.error ()) = _
              rw [hok]
              rfl
            rw [this] at ho
            cases ho
      · rintro ⟨raws', heq, hv, hp⟩
        injection heq with heq
        subst heq
        have hok : (processLoop bucket key pub raws s0 [] []).ok = true :=
          (processLoop_ok_iff bucket key pub raws s0 [] []).2 ⟨hv, hp⟩
        refine ⟨successOutcome, ?_⟩
        show (if (processLoop bucket key pub raws s0 [] []).ok
            then Except.ok successOutcome else Except.error ()) = _
        rw [hok]
        rfl

/-- Claim C8 counterexample: a batch whose record has `site_id = ""` is
processed successfully and the empty-keyed record is written to the store:
the handler performs no non-emptiness validation. -/
theorem c8_counterexample :
    (runPipeline "b" "k" pubAll (some [rawEmptyKey]) []).result =
        Except.ok successOutcome ∧
      (runPipeline "b" "k" pubAll (some [rawEmptyKey]) []).store.any
        (fun r => decide (r.site_id = "")) = true := by
  with_unfolding_all decide

/-- Claim C8 (amended): the pipeline copies `site_id` and `timestamp`
verbatim without validating non-emptiness; provided every input record of
the batch has non-empty `site_id` and `timestamp` (and the initial store
satisfies the same invariant), every record in the resulting store has
non-empty `site_id` and `timestamp`. -/
theorem c8_nonempty_keys (bucket key : String) (pub : Notification → Bool)
    (raws : List RawRecord) (s0 : Store)
    (h0 : ∀ x ∈ s0, x.site_id ≠ "" ∧ x.timestamp ≠ "")
    (hraws : ∀ raw ∈ raws,
      (∀ sid, raw.site_id = some sid → sid ≠ "") ∧
      (∀ ts, raw.timestamp = some ts → ts ≠ "")) :
    ∀ x ∈ (runPipeline bucket key pub (some raws) s0).store,
      x.site_id ≠ "" ∧ x.timestamp ≠ "" := by
  intro x hx
  have hstore : (runPipeline bucket key pub (some raws) s0).store =
      insertAll (writtenList bucket key pub raws) s0 := by
    show (processLoop bucket key pub raws s0 [] []).store = _
    rw [processLoop_store]
    rfl
  rw [hstore] at hx
  rcases mem_insertAll hx with h1 | h1
  · exact h0 x h1
  · obtain ⟨raw, hm, hn⟩ := writtenList_mem bucket key pub raws h1
    obtain ⟨hsid, hts, _, _, _, _⟩ := normalize_ok hn
    exact ⟨(hraws raw hm).1 x.site_id hsid, (hraws raw hm).2 x.timestamp hts⟩

/-- Witness for the amended C8 on a singleton batch with non-empty keys. -/
theorem c8_nonempty_keys_witness :
    recA.site_id ≠ "" ∧ recA.timestamp ≠ "" :=
  c8_nonempty_keys "b" "k" pubAll [rawA] []
    (by intro x hx; cases hx)
    (by
      intro raw hm
      rw [List.mem_singleton] at hm
      subst hm
      constructor
      · intro sid hs
        injection hs with hs
        subst hs
        decide
      · intro ts hs
        injection hs with hs
        subst hs
        decide)
    recA (by with_unfolding_all decide)

end Pep
